import Mathlib

/-!
Verification of the consumption-event store in `src/server.js`.

The repository bundles three transport bindings around the same three
operations.  The claims cite mainly the in-memory HTTP binding
(`tools.log_consumption`, `tools.list_consumption`, `tools.summarize_intake`,
lines 18-58) and, for ingestion, the Postgres binding (lines 267-317).
Both are embedded below.

Modelling conventions:
* JavaScript numbers are modelled by `JsNum`: a finite rational, NaN, or a
  signed infinity.  Float rounding is not modelled; the claims do not
  depend on it.  `typeof x === "number"` holds exactly for `JsNum` values,
  so an optional number field is `Option JsNum` (`none` = absent).
* String fields are `Option String`; JavaScript truthiness of a string is
  `some s` with `s` non-empty.
* `crypto.randomUUID()` (and `nanoid()`) is modelled by an id-generator
  parameter `gen : Nat → String` applied to a counter threaded through the
  store state; freshness of real UUIDs is not assumed by any theorem.
* In the Postgres binding the stored `ts` keeps the submitted timestamp
  string (`new Date` normalisation is orthogonal to row identity), but the
  failure modes of the INSERT are modelled: the CHECK constraint on `unit`
  (line 246) concretely, and whether `ts TIMESTAMPTZ NOT NULL` accepts the
  value `new Date(e.timestamp)` produces — JavaScript date parsing is not
  defined by this source — as an abstract predicate parameter `tsOk` over
  the submitted string.  Theorems about successful ingestion carry the
  corresponding hypotheses; a violation errors and rolls back.
-/

/-- Model of a JavaScript number: finite value, NaN, or a signed infinity. -/
inductive JsNum where
  | fin (q : ℚ)
  | nan
  | inf
  | ninf
deriving DecidableEq, Repr

/-- JavaScript truthiness of a number: 0 and NaN are falsy. -/
def jsNumTruthy : JsNum → Bool
  | .fin q => decide (q ≠ 0)
  | .nan => false
  | .inf => true
  | .ninf => true

/-- IEEE-style addition on the `JsNum` abstraction (used by the reduce in
`summarize_intake`): NaN absorbs, opposite infinities give NaN, an infinity
absorbs finite values, finite values add exactly. -/
def jsAdd : JsNum → JsNum → JsNum
  | .nan, _ => .nan
  | _, .nan => .nan
  | .inf, .ninf => .nan
  | .ninf, .inf => .nan
  | .inf, .fin _ => .inf
  | .inf, .inf => .inf
  | .fin _, .inf => .inf
  | .ninf, .fin _ => .ninf
  | .ninf, .ninf => .ninf
  | .fin _, .ninf => .ninf
  | .fin a, .fin b => .fin (a + b)

/-- Lexicographic comparison of character lists by code point; for the
ASCII date and timestamp strings involved this is exactly the JavaScript
`<` on strings (code-unit lexicographic order). -/
def lexLtChars : List Char → List Char → Bool
  | [], [] => false
  | [], _ :: _ => true
  | _ :: _, [] => false
  | a :: as, b :: bs => if a < b then true else if b < a then false else lexLtChars as bs

/-- JavaScript `a < b` on strings. -/
def jsStrLt (a b : String) : Bool := lexLtChars a.data b.data

/-- JavaScript `a <= b` on strings: for strings this is the negation of
`b < a`. -/
def jsStrLe (a b : String) : Bool := !(jsStrLt b a)

/-- JavaScript truthiness of an optional string: `undefined` and the empty
string are falsy. -/
def strTruthy : Option String → Bool
  | none => false
  | some s => !(s == "")

/-- JavaScript `x || d` for an optional string `x` and a default `d`. -/
def orDefault (o : Option String) (d : String) : String :=
  match o with
  | none => d
  | some s => if s == "" then d else s

/-- A raw event object as submitted to `log_consumption`.  Fields follow the
shape of section 3 of the data model; every field may be absent. -/
structure RawEvent where
  id : Option String
  user_id : Option String
  timestamp : Option String
  item : Option String
  amount : Option JsNum
  unit : Option String
  source : Option String
  calories : Option JsNum
  notes : Option String
deriving DecidableEq, Repr

/-- The record pushed into `db` by the in-memory `log_consumption`
(server.js lines 25-34).  Note the pushed object has no `notes` field and
its `id` is always the generated one. -/
structure StoredEvent where
  id : String
  user_id : String
  timestamp : String
  item : String
  amount : JsNum
  unit : String
  source : String
  calories : Option JsNum
deriving DecidableEq, Repr

/-- Field mapping of the in-memory push (lines 25-34): fresh `id`,
`user_id` defaulted to "u1", `source` defaulted to "manual",
`calories` kept as submitted (`?? null` keeps absent as null). -/
def storedEvent (id : String) (e : RawEvent) : StoredEvent :=
  { id := id
    user_id := orDefault e.user_id "u1"
    timestamp := e.timestamp.getD ""
    item := e.item.getD ""
    amount := e.amount.getD (.fin 0)
    unit := e.unit.getD ""
    source := orDefault e.source "manual"
    calories := e.calories }

/-- The validation check of server.js line 22 (and line 292):
`!e.timestamp || !e.item || typeof e.amount !== "number" || !e.unit`. -/
def isInvalidEvent (e : RawEvent) : Bool :=
  !strTruthy e.timestamp || !strTruthy e.item || !e.amount.isSome
    || !strTruthy e.unit

/-- The `events` field of a `log_consumption` input: absent (also when the
whole input is absent), present but not an array, or an array of events.
The code only tests `Array.isArray`. -/
inductive EventsVal where
  | absent
  | notArray
  | arr (events : List RawEvent)
deriving DecidableEq, Repr

/-- State of the in-memory binding: the `db` array plus the id-generator
counter used to model `crypto.randomUUID()`. -/
structure MemState where
  db : List StoredEvent
  ctr : Nat
deriving DecidableEq, Repr

/-- The `for (const e of events)` loop of the in-memory `log_consumption`
(lines 21-35): each event is validated and, when valid, immediately pushed;
the first invalid event aborts the loop by throwing, keeping earlier
pushes. -/
def logLoop (gen : Nat → String) : List RawEvent → MemState → MemState × Option String
  | [], st => (st, none)
  | e :: rest, st =>
    if isInvalidEvent e then (st, some "Invalid event")
    else logLoop gen rest ⟨st.db ++ [storedEvent (gen st.ctr) e], st.ctr + 1⟩

/-- In-memory `tools.log_consumption` (lines 19-37): a non-array `events`
field is coerced to the empty array; on success the result is
`saved_count = events.length`. -/
def log_consumption (gen : Nat → String) (evs : EventsVal) (st : MemState) :
    MemState × Except String Nat :=
  let events := match evs with
    | .arr l => l
    | _ => []
  match logLoop gen events st with
  | (st2, none) => (st2, .ok events.length)
  | (st2, some m) => (st2, .error m)

/-- The filter input of `list_consumption`/`summarize_intake`
(`{ user_id, from, to }`; an absent input object gives all three absent). -/
structure ListInput where
  user_id : Option String
  fromDate : Option String
  toDate : Option String
deriving DecidableEq, Repr

/-- `const iso = s => (s || "").slice(0, 10)` applied to a stored (hence
string) timestamp. -/
def iso10 (s : String) : String := s.take 10

/-- The filter predicate of the in-memory `list_consumption` (lines 42-48),
with the three early-return tests in source order. -/
def matchesFilter (f : ListInput) (e : StoredEvent) : Bool :=
  if strTruthy f.user_id && !(e.user_id == f.user_id.getD "") then false
  else if strTruthy f.fromDate && jsStrLt (iso10 e.timestamp) (f.fromDate.getD "") then false
  else if strTruthy f.toDate && jsStrLt (f.toDate.getD "") (iso10 e.timestamp) then false
  else true

/-- In-memory `tools.list_consumption` (lines 39-50): `db.filter(...)`,
returned in store order (no sort). -/
def list_consumption (f : ListInput) (st : MemState) : List StoredEvent :=
  st.db.filter (matchesFilter f)

/-- `e.calories || 0` on a stored calories value (absent was stored as
null): null, 0 and NaN are falsy and give 0. -/
def truthyCalories (c : Option JsNum) : JsNum :=
  match c with
  | none => .fin 0
  | some v => if jsNumTruthy v then v else .fin 0

/-- In-memory `tools.summarize_intake` (lines 52-57): reduce over the
records returned by `list_consumption` for the same filter. -/
def summarize_intake (f : ListInput) (st : MemState) : JsNum × Nat :=
  let ev := list_consumption f st
  (ev.foldl (fun s e => jsAdd s (truthyCalories e.calories)) (.fin 0), ev.length)

/-- Summation of a list of JavaScript numbers starting from 0. -/
def jsSum (l : List JsNum) : JsNum := l.foldl jsAdd (.fin 0)

/-- The records stored for a batch of valid events, starting at counter
`k`: one `storedEvent` per event, with consecutive generated ids. -/
def storedBatch (gen : Nat → String) : Nat → List RawEvent → List StoredEvent
  | _, [] => []
  | k, e :: rest => storedEvent (gen k) e :: storedBatch gen (k + 1) rest

/-- A row of the `consumption_events` table of the Postgres binding.
`ts` keeps the submitted timestamp string (`new Date` normalisation is not
modelled). -/
structure PgRow where
  id : String
  user_id : String
  ts : String
  item : String
  amount : JsNum
  unit : String
  source : String
  calories : Option JsNum
  notes : Option String
deriving DecidableEq, Repr

/-- Row built by the Postgres insert (lines 295-307): `id` is
`e.id || crypto.randomUUID()` (supplied separately), defaults as in the
in-memory binding, and `notes` is kept. -/
def pgRowFor (id : String) (e : RawEvent) : PgRow :=
  { id := id
    user_id := orDefault e.user_id "u1"
    ts := e.timestamp.getD ""
    item := e.item.getD ""
    amount := e.amount.getD (.fin 0)
    unit := e.unit.getD ""
    source := orDefault e.source "manual"
    calories := e.calories
    notes := e.notes }

/-- Row-level effect of a SUCCESSFUL
`INSERT ... ON CONFLICT (id) DO UPDATE SET <every column>`
(lines 276-290): if a row with the same primary key exists it is replaced
in place by the new row, otherwise the new row is appended.  The
constraints that can make the INSERT fail instead are enforced by
`pgInsert` below. -/
def pgUpsert (r : PgRow) (tbl : List PgRow) : List PgRow :=
  if tbl.any (fun x => x.id == r.id)
  then tbl.map (fun x => if x.id == r.id then r else x)
  else tbl ++ [r]

/-- The CHECK constraint of the `consumption_events` table (line 246):
`unit IN ('g','ml','piece','serving')`. -/
def pgUnitOk (u : String) : Bool :=
  u == "g" || u == "ml" || u == "piece" || u == "serving"

/-- One `client.query(sql, ...)` INSERT attempt (lines 297-307) against
the table of lines 240-252.  It can fail: `ts TIMESTAMPTZ NOT NULL` must
accept the value produced by `new Date(e.timestamp)` — JavaScript date
parsing is not defined by this source, so acceptance is abstracted as the
predicate `tsOk` over the submitted timestamp string — and `unit` must
satisfy the CHECK constraint.  A violation makes the query throw; the
exact driver/database message text is not in the source, so descriptive
labels stand for it (the claims only rely on these errors being errors).
On success the row replaces or joins the table (`pgUpsert`).  The other
NOT NULL columns (`item`, `amount`, `unit`, `source`) are always non-null
for events that passed the line-292 validation and the defaulting. -/
def pgInsert (tsOk : String → Bool) (r : PgRow) (tbl : List PgRow) :
    Except String (List PgRow) :=
  if !tsOk r.ts then .error "invalid input for column ts"
  else if !pgUnitOk r.unit then .error "row violates check constraint on unit"
  else .ok (pgUpsert r tbl)

/-- The transactional loop of the Postgres `log_consumption`
(lines 291-308): validate each event, then attempt its INSERT; the first
validation failure or constraint violation aborts with an error. -/
def pgLoop (gen : Nat → String) (tsOk : String → Bool) :
    Nat → List RawEvent → List PgRow → Except String (List PgRow)
  | _, [], tbl => .ok tbl
  | k, e :: rest, tbl =>
    if isInvalidEvent e then .error "Invalid event"
    else
      match pgInsert tsOk (pgRowFor (orDefault e.id (gen k)) e) tbl with
      | .ok tbl2 => pgLoop gen tsOk (k + 1) rest tbl2
      | .error m => .error m

/-- Postgres `tools.log_consumption` (lines 269-317): empty batch returns
early; otherwise the loop runs inside BEGIN/COMMIT and any error —
validation or constraint violation — rolls the table back to its pre-call
contents and propagates. -/
def pg_log_consumption (gen : Nat → String) (tsOk : String → Bool) (evs : EventsVal)
    (tbl : List PgRow) : List PgRow × Except String Nat :=
  let events := match evs with
    | .arr l => l
    | _ => []
  if events.isEmpty then (tbl, .ok 0)
  else
    match pgLoop gen tsOk 0 events tbl with
    | .ok tbl2 => (tbl2, .ok events.length)
    | .error m => (tbl, .error m)

/-- Instantiation of the abstract timestamp-acceptance predicate for
concrete evaluations: the concrete events in this file carry full
ISO-8601 UTC strings, which `new Date` parses and `timestamptz`
accepts. -/
def tsAlways : String → Bool := fun _ => true

/-- Primary-key uniqueness of the Postgres table: ids are pairwise
distinct. -/
def pgNodup (tbl : List PgRow) : Prop := (tbl.map (fun r => r.id)).Nodup

/-- The validator as the spec words it (claim C4): timestamp and item
present and non-empty, amount present and a finite number, unit a member
of the four enumerated values. -/
def claimedValidator (e : RawEvent) : Bool :=
  strTruthy e.timestamp && strTruthy e.item
    && (match e.amount with
        | some (.fin _) => true
        | _ => false)
    && (match e.unit with
        | some u => u == "g" || u == "ml" || u == "piece" || u == "serving"
        | none => false)

/-- The filter as the spec words it (claim C6): each bound applies whenever
the field is present (`some`), with no truthiness escape for the empty
string. -/
def claimedMatch (f : ListInput) (e : StoredEvent) : Bool :=
  (match f.user_id with
   | none => true
   | some u => e.user_id == u)
  && (match f.fromDate with
      | none => true
      | some s => jsStrLe s (iso10 e.timestamp))
  && (match f.toDate with
      | none => true
      | some s => jsStrLe (iso10 e.timestamp) s)

/-- The filter the code actually implements, in claim language: as
`claimedMatch` but a present-and-empty field is ignored like an absent
one (JavaScript truthiness). -/
def amendedMatch (f : ListInput) (e : StoredEvent) : Bool :=
  (match f.user_id with
   | none => true
   | some u => u == "" || e.user_id == u)
  && (match f.fromDate with
      | none => true
      | some s => s == "" || jsStrLe s (iso10 e.timestamp))
  && (match f.toDate with
      | none => true
      | some s => s == "" || jsStrLe (iso10 e.timestamp) s)

/-- The total the spec words describe (claim C7): sum of the calories
fields over the listed records, an absent value taken as 0. -/
def claimedTotal (f : ListInput) (st : MemState) : JsNum :=
  jsSum ((list_consumption f st).map (fun e => e.calories.getD (.fin 0)))

/-- Deterministic stand-in for `crypto.randomUUID()`. -/
def genU (n : Nat) : String := "uuid" ++ toString n

/-- A valid event with no id and no user: an apple. -/
def eApple : RawEvent :=
  ⟨none, none, some "2024-01-01T08:00:00Z", some "apple", some (.fin 1),
    some "g", none, some (.fin 52), none⟩

/-- An invalid event: `unit` is missing. -/
def eNoUnit : RawEvent :=
  ⟨none, none, some "2024-01-01T09:00:00Z", some "water", some (.fin 200),
    none, none, none, none⟩

/-- The four truthiness checks of line 22, conjoined in the order the claim gives:
this is what the in-memory binding actually requires of an event. -/
def truthyChecks (e : RawEvent) : Bool :=
  strTruthy e.timestamp && strTruthy e.item && e.amount.isSome && strTruthy e.unit

/-- The empty filter: absent `user_id`, `from` and `to`. -/
def fNone : ListInput := ⟨none, none, none⟩

/-- A valid event submitted with the id "uuid0", which is exactly the id
the store assigned to the first ingested record. -/
def eCherry : RawEvent :=
  ⟨some "uuid0", some "alice", some "2024-01-02T00:00:00Z", some "cherry",
    some (.fin 2), some "g", none, none, none⟩

/-- A valid event submitted with id "e1". -/
def eTea : RawEvent :=
  ⟨some "e1", some "alice", some "2024-01-05T00:00:00Z", some "tea",
    some (.fin 1), some "ml", none, none, none⟩

/-- A valid-per-the-code event whose unit "kg" is outside the enumerated
set. -/
def eKg : RawEvent :=
  ⟨none, none, some "2024-01-04T00:00:00Z", some "flour", some (.fin 500),
    some "kg", none, none, none⟩

/-- Event with the later timestamp, ingested first. -/
def eLate : RawEvent :=
  ⟨none, none, some "2024-01-02T00:00:00Z", some "late", some (.fin 1),
    some "g", none, none, none⟩

/-- Event with the earlier timestamp, ingested second. -/
def eEarly : RawEvent :=
  ⟨none, none, some "2024-01-01T00:00:00Z", some "early", some (.fin 1),
    some "g", none, none, none⟩

/-- A valid event whose calories value is NaN (calories is never
validated). -/
def eNanCal : RawEvent :=
  ⟨none, none, some "2024-01-03T00:00:00Z", some "mystery", some (.fin 1),
    some "g", none, some .nan, none⟩

/-- Events of the three spec dates, for one owner. -/
def eJan01 : RawEvent :=
  ⟨none, none, some "2024-01-01T00:00:00Z", some "a", some (.fin 1),
    some "g", none, none, none⟩

/-- Event on 2024-01-15. -/
def eJan15 : RawEvent :=
  ⟨none, none, some "2024-01-15T00:00:00Z", some "b", some (.fin 1),
    some "g", none, none, none⟩

/-- Event on 2024-02-01. -/
def eFeb01 : RawEvent :=
  ⟨none, none, some "2024-02-01T00:00:00Z", some "c", some (.fin 1),
    some "g", none, none, none⟩

/-- A valid event owned by "alice". -/
def eAlice : RawEvent :=
  ⟨none, some "alice", some "2024-01-06T00:00:00Z", some "soup",
    some (.fin 300), some "ml", none, some (.fin 120), none⟩

/-- Store after ingesting the apple event into an empty store. -/
def stA : MemState := (log_consumption genU (.arr [eApple]) ⟨[], 0⟩).1

/-- Store after then ingesting `eCherry`, whose submitted id "uuid0"
already names the stored apple record. -/
def stB : MemState := (log_consumption genU (.arr [eCherry]) stA).1

/-- Store after ingesting the later-timestamped event before the earlier
one. -/
def st5 : MemState := (log_consumption genU (.arr [eLate, eEarly]) ⟨[], 0⟩).1

/-- Store holding one record whose calories value is NaN. -/
def st7 : MemState := (log_consumption genU (.arr [eNanCal]) ⟨[], 0⟩).1

/-- Store holding the three spec-date events, ingested in timestamp
order. -/
def stD : MemState := (log_consumption genU (.arr [eJan01, eJan15, eFeb01]) ⟨[], 0⟩).1

/-- Bool bridge: the source check of line 22 is the negated disjunction of
the four truthiness checks. -/
theorem truthyChecks_eq_not_invalid (e : RawEvent) :
    truthyChecks e = !isInvalidEvent e := by
  unfold truthyChecks isInvalidEvent
  cases strTruthy e.timestamp <;> cases strTruthy e.item <;>
    cases e.amount.isSome <;> cases strTruthy e.unit <;> rfl

/-- C1.  In the in-memory binding, a batch whose second event is invalid
fails with "Invalid event" but leaves the first, valid event in the store:
the store is observably changed.  The Postgres binding rolls back and is
left unchanged on the same batch, for every timestamp-acceptance predicate
that accepts the first event's ISO timestamp (its unit "g" passes the
CHECK constraint; the second event fails validation before any insert). -/
theorem c1_invalid_batch_keeps_valid_first_event (tsOk : String → Bool)
    (hts : tsOk "2024-01-01T08:00:00Z" = true) :
    log_consumption genU (.arr [eApple, eNoUnit]) ⟨[], 0⟩
        = (⟨[storedEvent "uuid0" eApple], 1⟩, .error "Invalid event")
      ∧ pg_log_consumption genU tsOk (.arr [eApple, eNoUnit]) []
        = ([], .error "Invalid event") := by
  refine ⟨rfl, ?_⟩
  simp [pg_log_consumption, pgLoop, pgInsert, pgRowFor, pgUnitOk, orDefault,
    eApple, eNoUnit, isInvalidEvent, strTruthy, hts]

/-- C1 witness: the abstract predicate instantiated at `tsAlways`. -/
theorem c1_invalid_batch_witness :
    tsAlways "2024-01-01T08:00:00Z" = true
      ∧ (log_consumption genU (.arr [eApple, eNoUnit]) ⟨[], 0⟩
          = (⟨[storedEvent "uuid0" eApple], 1⟩, .error "Invalid event")
        ∧ pg_log_consumption genU tsAlways (.arr [eApple, eNoUnit]) []
          = ([], .error "Invalid event")) :=
  ⟨rfl, c1_invalid_batch_keeps_valid_first_event tsAlways rfl⟩

/-- C2 counterexample.  In the in-memory binding the submitted id is
ignored: after storing the apple record under the generated id "uuid0",
ingesting `eCherry` (submitted id "uuid0", item "cherry") does not replace
the apple record; there is no record carrying the new values under that
id, the store grows to two records, and ingesting the same event again
grows it to three, so twice is not once. -/
theorem c2_inmemory_reingest_does_not_replace :
    eCherry.id = some "uuid0"
      ∧ eCherry.item = some "cherry"
      ∧ stA.db.map (fun r => r.id) = ["uuid0"]
      ∧ (stB.db.filter (fun r => r.id == "uuid0")).map (fun r => r.item) = ["apple"]
      ∧ ¬ (∃ r ∈ stB.db, r.id = "uuid0" ∧ r.item = "cherry")
      ∧ stB.db.length = 2
      ∧ (log_consumption genU (.arr [eCherry]) stB).1.db.length = 3 := by
  refine ⟨rfl, rfl, by decide, by decide, by decide, by decide, by decide⟩

/-- C3 counterexample.  A valid one-event batch submitted with id "e1" is
stored and listed under the fresh generated id "uuid0"; no listed record
carries the submitted id, so the listing does not return the records of
the batch matched by id. -/
theorem c3_listed_id_differs_from_submitted :
    eTea.id = some "e1"
      ∧ (list_consumption fNone (log_consumption genU (.arr [eTea]) ⟨[], 0⟩).1).map
          (fun r => r.id) = ["uuid0"]
      ∧ ¬ (∃ r ∈ list_consumption fNone (log_consumption genU (.arr [eTea]) ⟨[], 0⟩).1,
            r.id = "e1") := by
  refine ⟨rfl, by decide, by decide⟩

/-- C4 counterexample.  The event `eKg` fails the validator described by
the claim (unit "kg" is not one of g, ml, piece, serving), yet the
in-memory binding accepts and stores it. -/
theorem c4_unit_kg_accepted :
    claimedValidator eKg = false
      ∧ eKg.unit = some "kg"
      ∧ log_consumption genU (.arr [eKg]) ⟨[], 0⟩
          = (⟨[storedEvent "uuid0" eKg], 1⟩, .ok 1) :=
  ⟨rfl, rfl, rfl⟩

/-- C4 amended.  A one-event batch is accepted (and its record appended)
exactly when the four truthiness checks of line 22 pass: timestamp and
item truthy, amount of number type (finiteness not checked), unit truthy
(membership in the four units not checked); otherwise the call fails with
"Invalid event" and the store is unchanged. -/
theorem c4_acceptance_iff_truthy_checks (gen : Nat → String) (st : MemState) (e : RawEvent) :
    log_consumption gen (.arr [e]) st
      = if truthyChecks e
        then (⟨st.db ++ [storedEvent (gen st.ctr) e], st.ctr + 1⟩, .ok 1)
        else (st, .error "Invalid event") := by
  rw [truthyChecks_eq_not_invalid]
  cases hv : isInvalidEvent e <;> simp [log_consumption, logLoop, hv]

/-- C5 counterexample.  Two valid events ingested in reverse timestamp
order are listed in insertion order, so the listing is not ascending by
timestamp. -/
theorem c5_list_not_sorted_by_timestamp :
    (list_consumption fNone st5).map (fun r => r.timestamp)
        = ["2024-01-02T00:00:00Z", "2024-01-01T00:00:00Z"]
      ∧ ¬ List.Pairwise (fun x y : StoredEvent => jsStrLe x.timestamp y.timestamp = true)
          (list_consumption fNone st5) :=
  ⟨by decide, by decide⟩

/-- C6 counterexample.  With the present-but-empty filter
`user_id = ""`, the stored apple record (owner "u1") is returned even
though the claim requires the record owner to equal the filter value
exactly. -/
theorem c6_empty_user_filter_ignored :
    storedEvent "uuid0" eApple ∈ list_consumption ⟨some "", none, none⟩ stA
      ∧ claimedMatch ⟨some "", none, none⟩ (storedEvent "uuid0" eApple) = false :=
  ⟨by decide, by decide⟩

/-- C7 counterexample.  A stored record with a present NaN calories value
is summed as 0 by the code (`calories || 0` treats NaN as falsy), while
the sum of the calories fields described by the claim is NaN. -/
theorem c7_nan_calories_summed_as_zero :
    (summarize_intake fNone st7).1 = JsNum.fin 0
      ∧ claimedTotal fNone st7 = JsNum.nan
      ∧ (summarize_intake fNone st7).1 ≠ claimedTotal fNone st7 := by
  have h1 : (summarize_intake fNone st7).1 = JsNum.fin (0 + 0) := rfl
  have h1b : (summarize_intake fNone st7).1 = JsNum.fin 0 := by rw [h1]; norm_num
  have h2 : claimedTotal fNone st7 = JsNum.nan := rfl
  exact ⟨h1b, h2, by rw [h1b, h2]; exact fun h => JsNum.noConfusion h⟩

/-- C9.  An empty events array is a no-op in both bindings: the store is
unchanged and `saved_count` is 0. -/
theorem c9_empty_batch_noop (gen : Nat → String) (tsOk : String → Bool)
    (st : MemState) (tbl : List PgRow) :
    log_consumption gen (.arr []) st = (st, .ok 0)
      ∧ pg_log_consumption gen tsOk (.arr []) tbl = (tbl, .ok 0) :=
  ⟨rfl, rfl⟩

/-- C10.  A missing `events` field (also when the whole input is absent)
or a non-array `events` value is coerced to the empty array by the
`Array.isArray` guard in both bindings: the call succeeds with
`saved_count` 0 and the store is unchanged. -/
theorem c10_missing_or_nonarray_events_noop (gen : Nat → String) (tsOk : String → Bool)
    (st : MemState) (tbl : List PgRow) :
    log_consumption gen .absent st = (st, .ok 0)
      ∧ log_consumption gen .notArray st = (st, .ok 0)
      ∧ pg_log_consumption gen tsOk .absent tbl = (tbl, .ok 0)
      ∧ pg_log_consumption gen tsOk .notArray tbl = (tbl, .ok 0) :=
  ⟨rfl, rfl, rfl, rfl⟩

/-- The all-absent filter matches every record. -/
theorem matchesFilter_fNone (e : StoredEvent) : matchesFilter fNone e = true := rfl

/-- Listing with the all-absent filter returns the whole store in store
order. -/
theorem list_consumption_fNone (st : MemState) : list_consumption fNone st = st.db := by
  unfold list_consumption
  rw [List.filter_eq_self]
  intro a _
  exact matchesFilter_fNone a

/-- On an all-valid batch the ingestion loop appends one stored record per
event, with consecutive generated ids, and reports no error. -/
theorem logLoop_valid (gen : Nat → String) :
    ∀ (evs : List RawEvent) (st : MemState), (∀ e ∈ evs, isInvalidEvent e = false) →
    logLoop gen evs st
      = (⟨st.db ++ storedBatch gen st.ctr evs, st.ctr + evs.length⟩, none) := by
  intro evs
  induction evs with
  | nil => intro st h; simp [logLoop, storedBatch]
  | cons e rest ih =>
    intro st h
    have he : isInvalidEvent e = false := h e (List.mem_cons_self e rest)
    have hr : ∀ e2 ∈ rest, isInvalidEvent e2 = false :=
      fun e2 h2 => h e2 (List.mem_cons_of_mem e h2)
    simp only [logLoop, he, Bool.false_eq_true, if_false]
    rw [ih ⟨st.db ++ [storedEvent (gen st.ctr) e], st.ctr + 1⟩ hr]
    simp only [storedBatch, List.append_assoc, List.singleton_append, List.length_cons,
      Prod.mk.injEq, MemState.mk.injEq, and_true, true_and]
    omega

/-- C3 amended.  Ingesting a valid batch into an empty store and listing
with no filter returns one record per batch event, in submission order,
with the submitted timestamp, item, amount, unit and calories, the
defaulted user and source, and a fresh generated id per record. -/
theorem c3_ingest_then_list_returns_stored_batch (gen : Nat → String)
    (batch : List RawEvent) (h : ∀ e ∈ batch, isInvalidEvent e = false) :
    list_consumption fNone (log_consumption gen (.arr batch) ⟨[], 0⟩).1
      = storedBatch gen 0 batch := by
  have hl := logLoop_valid gen batch ⟨[], 0⟩ h
  simp [log_consumption, hl, list_consumption_fNone]

/-- C3 witness: a concrete two-event valid batch. -/
theorem c3_ingest_then_list_witness :
    (∀ e ∈ [eApple, eAlice], isInvalidEvent e = false)
      ∧ list_consumption fNone (log_consumption genU (.arr [eApple, eAlice]) ⟨[], 0⟩).1
          = storedBatch genU 0 [eApple, eAlice] :=
  ⟨by decide, c3_ingest_then_list_returns_stored_batch genU [eApple, eAlice] (by decide)⟩

/-- C5 amended.  The in-memory listing is an order-preserving sublist of
the store (insertion order); in particular it is ascending by timestamp
exactly when the store contents already are, not in general. -/
theorem c5_list_preserves_insertion_order (f : ListInput) (st : MemState) :
    (list_consumption f st).Sublist st.db
      ∧ (List.Pairwise (fun x y => jsStrLe x.timestamp y.timestamp = true) st.db →
         List.Pairwise (fun x y => jsStrLe x.timestamp y.timestamp = true)
           (list_consumption f st)) :=
  ⟨List.filter_sublist st.db,
    fun h => List.Pairwise.sublist (List.filter_sublist st.db) h⟩

/-- C5 witness: a store ingested in timestamp order stays sorted when
listed. -/
theorem c5_insertion_order_witness :
    List.Pairwise (fun x y : StoredEvent => jsStrLe x.timestamp y.timestamp = true) stD.db
      ∧ (list_consumption fNone stD).Sublist stD.db
      ∧ List.Pairwise (fun x y : StoredEvent => jsStrLe x.timestamp y.timestamp = true)
          (list_consumption fNone stD) :=
  ⟨by decide, (c5_list_preserves_insertion_order fNone stD).1,
    (c5_list_preserves_insertion_order fNone stD).2 (by decide)⟩

/-- The nested early-return filter is the conjunction of its three negated
tests. -/
theorem matchesFilter_clauses (f : ListInput) (e : StoredEvent) :
    matchesFilter f e
      = (!(strTruthy f.user_id && !(e.user_id == f.user_id.getD ""))
          && !(strTruthy f.fromDate && jsStrLt (iso10 e.timestamp) (f.fromDate.getD ""))
          && !(strTruthy f.toDate && jsStrLt (f.toDate.getD "") (iso10 e.timestamp))) := by
  cases h1 : (strTruthy f.user_id && !(e.user_id == f.user_id.getD "")) <;>
    cases h2 : (strTruthy f.fromDate && jsStrLt (iso10 e.timestamp) (f.fromDate.getD "")) <;>
      cases h3 : (strTruthy f.toDate && jsStrLt (f.toDate.getD "") (iso10 e.timestamp)) <;>
        simp [matchesFilter, h1, h2, h3]

/-- Owner clause: the truthiness test equals the claim-style clause with
an empty-string escape. -/
theorem userClause (u : Option String) (v : String) :
    (!(strTruthy u && !(v == u.getD "")))
      = (match u with
         | none => true
         | some s => s == "" || v == s) := by
  cases u with
  | none => rfl
  | some s => cases hs : (s == "") <;> cases hv : (v == s) <;> simp [strTruthy, hs, hv]

/-- Lower-bound clause: not (d < s) is s <= d. -/
theorem fromClause (o : Option String) (d : String) :
    (!(strTruthy o && jsStrLt d (o.getD "")))
      = (match o with
         | none => true
         | some s => s == "" || jsStrLe s d) := by
  cases o with
  | none => rfl
  | some s => cases hs : (s == "") <;> cases hl : (jsStrLt d s) <;> simp [strTruthy, jsStrLe, hs, hl]

/-- Upper-bound clause: not (s < d) is d <= s. -/
theorem toClause (o : Option String) (d : String) :
    (!(strTruthy o && jsStrLt (o.getD "") d))
      = (match o with
         | none => true
         | some s => s == "" || jsStrLe d s) := by
  cases o with
  | none => rfl
  | some s => cases hs : (s == "") <;> cases hl : (jsStrLt s d) <;> simp [strTruthy, jsStrLe, hs, hl]

/-- The code filter coincides with the amended claim-style filter. -/
theorem matchesFilter_eq_amendedMatch (f : ListInput) (e : StoredEvent) :
    matchesFilter f e = amendedMatch f e := by
  rw [matchesFilter_clauses]
  unfold amendedMatch
  rw [userClause f.user_id e.user_id, fromClause f.fromDate (iso10 e.timestamp),
    toClause f.toDate (iso10 e.timestamp)]

/-- C6 amended.  A record is returned by `list_consumption` exactly when
it is in the store and satisfies the claim filter amended for truthiness:
a present-but-empty `user_id`, `from` or `to` is ignored like an absent
one; otherwise the owner must match exactly and the 10-character date
lies within the inclusive bounds. -/
theorem c6_member_iff_amended_match (f : ListInput) (st : MemState) (r : StoredEvent) :
    r ∈ list_consumption f st ↔ (r ∈ st.db ∧ amendedMatch f r = true) := by
  simp [list_consumption, List.mem_filter, matchesFilter_eq_amendedMatch]

/-- C6 witness: the date-filter example of the spec instantiated through the
amended characterisation. -/
theorem c6_member_witness :
    (storedEvent "uuid1" eJan15
        ∈ list_consumption ⟨none, some "2024-01-10", some "2024-01-31"⟩ stD
      ↔ (storedEvent "uuid1" eJan15 ∈ stD.db
          ∧ amendedMatch ⟨none, some "2024-01-10", some "2024-01-31"⟩
              (storedEvent "uuid1" eJan15) = true)) :=
  c6_member_iff_amended_match ⟨none, some "2024-01-10", some "2024-01-31"⟩ stD
    (storedEvent "uuid1" eJan15)

/-- C7 amended.  `summarize_intake` returns the length of the filtered
listing as `events_count`, and as `total_calories` the sum over exactly
those records of the calories value when truthy and 0 otherwise (absent,
0 and NaN all contribute 0). -/
theorem c7_summarize_totals_listed_records (f : ListInput) (st : MemState) :
    summarize_intake f st
      = (jsSum ((list_consumption f st).map (fun e => truthyCalories e.calories)),
         (list_consumption f st).length) := by
  simp [summarize_intake, jsSum, List.foldl_map]

/-- A non-empty submitted string survives the `|| default`. -/
theorem orDefault_some_of_ne (s d : String) (h : s ≠ "") : orDefault (some s) d = s := by
  simp [orDefault, h]

/-- The ingestion loop only ever appends records, and when every batch
event carries owner `a` (non-empty), every appended record carries owner
`a` — also on batches aborted by a validation error. -/
theorem logLoop_only_appends_owner (gen : Nat → String) (a : String) (ha : a ≠ "") :
    ∀ (evs : List RawEvent) (st : MemState), (∀ e ∈ evs, e.user_id = some a) →
    ∃ ap : List StoredEvent, (logLoop gen evs st).1.db = st.db ++ ap
      ∧ ∀ r ∈ ap, r.user_id = a := by
  intro evs
  induction evs with
  | nil => intro st h; exact ⟨[], by simp [logLoop], by simp⟩
  | cons e rest ih =>
    intro st h
    cases hv : isInvalidEvent e with
    | true => exact ⟨[], by simp [logLoop, hv], by simp⟩
    | false =>
      obtain ⟨ap, h1, h2⟩ := ih ⟨st.db ++ [storedEvent (gen st.ctr) e], st.ctr + 1⟩
        (fun e2 hm => h e2 (List.mem_cons_of_mem e hm))
      refine ⟨storedEvent (gen st.ctr) e :: ap, ?_, ?_⟩
      · simp only [logLoop, hv, Bool.false_eq_true, if_false]
        rw [h1]
        simp [List.append_assoc]
      · intro r hr
        rcases List.mem_cons.mp hr with hre | hm
        · have he : e.user_id = some a := h e (List.mem_cons_self e rest)
          rw [hre]
          simp [storedEvent, he, orDefault_some_of_ne a "u1" ha]
        · exact h2 r hm

/-- The post-call store of `log_consumption` is the store left by the loop, on both
the success and the error path. -/
theorem log_consumption_state (gen : Nat → String) (evs : List RawEvent) (st : MemState) :
    (log_consumption gen (.arr evs) st).1 = (logLoop gen evs st).1 := by
  unfold log_consumption
  rcases h : logLoop gen evs st with ⟨st2, m⟩
  cases m <;> simp [h]

/-- A record owned by someone else never passes a filter scoped to a
non-empty owner `b`. -/
theorem matchesFilter_other_owner (b : String) (fd td : Option String) (r : StoredEvent)
    (hb : b ≠ "") (hne : r.user_id ≠ b) : matchesFilter ⟨some b, fd, td⟩ r = false := by
  have h1 : (b == "") = false := by simp [hb]
  have h2 : (r.user_id == b) = false := by simp [hne]
  simp [matchesFilter, strTruthy, h1, h2]

/-- C8.  Owner isolation: ingesting a batch entirely owned by a non-empty
`a` changes neither the listing nor the summary scoped to a distinct
non-empty owner `b`, for any date bounds — even when the batch aborts on
an invalid event. -/
theorem c8_owner_isolation (gen : Nat → String) (st : MemState) (batch : List RawEvent)
    (a b : String) (fd td : Option String)
    (ha : a ≠ "") (hb : b ≠ "") (hab : a ≠ b)
    (howner : ∀ e ∈ batch, e.user_id = some a) :
    list_consumption ⟨some b, fd, td⟩ (log_consumption gen (.arr batch) st).1
        = list_consumption ⟨some b, fd, td⟩ st
      ∧ summarize_intake ⟨some b, fd, td⟩ (log_consumption gen (.arr batch) st).1
        = summarize_intake ⟨some b, fd, td⟩ st := by
  obtain ⟨ap, h1, h2⟩ := logLoop_only_appends_owner gen a ha batch st howner
  have hlist : list_consumption ⟨some b, fd, td⟩ (log_consumption gen (.arr batch) st).1
      = list_consumption ⟨some b, fd, td⟩ st := by
    unfold list_consumption
    rw [log_consumption_state, h1, List.filter_append]
    have hnil : ap.filter (matchesFilter ⟨some b, fd, td⟩) = [] := by
      rw [List.filter_eq_nil_iff]
      intro r hr
      have hu : r.user_id = a := h2 r hr
      simp [matchesFilter_other_owner b fd td r hb (by rw [hu]; exact hab)]
    rw [hnil, List.append_nil]
  refine ⟨hlist, ?_⟩
  unfold summarize_intake
  rw [hlist]

/-- C8 witness: a batch owned by "alice" is invisible to "bob". -/
theorem c8_owner_isolation_witness :
    ("alice" : String) ≠ "" ∧ ("bob" : String) ≠ "" ∧ ("alice" : String) ≠ "bob"
      ∧ (∀ e ∈ [eAlice], e.user_id = some "alice")
      ∧ (list_consumption ⟨some "bob", none, none⟩
            (log_consumption genU (.arr [eAlice]) ⟨[], 0⟩).1
          = list_consumption ⟨some "bob", none, none⟩ ⟨[], 0⟩
        ∧ summarize_intake ⟨some "bob", none, none⟩
            (log_consumption genU (.arr [eAlice]) ⟨[], 0⟩).1
          = summarize_intake ⟨some "bob", none, none⟩ ⟨[], 0⟩) :=
  ⟨by decide, by decide, by decide, by decide,
    c8_owner_isolation genU ⟨[], 0⟩ [eAlice] "alice" "bob" none none
      (by decide) (by decide) (by decide) (by decide)⟩

/-- Pointwise-equal functions map rows equally. -/
theorem pgMapCongr (f g : PgRow → PgRow) :
    ∀ (l : List PgRow), (∀ x ∈ l, f x = g x) → l.map f = l.map g := by
  intro l
  induction l with
  | nil => intro _; rfl
  | cons x xs ih =>
    intro h
    simp only [List.map_cons, h x (List.mem_cons_self x xs),
      ih (fun y hy => h y (List.mem_cons_of_mem x hy))]

/-- Mapping a function that fixes every member is the identity. -/
theorem pgMapSelf (f : PgRow → PgRow) :
    ∀ (l : List PgRow), (∀ x ∈ l, f x = x) → l.map f = l := by
  intro l
  induction l with
  | nil => intro _; rfl
  | cons x xs ih =>
    intro h
    simp only [List.map_cons, h x (List.mem_cons_self x xs),
      ih (fun y hy => h y (List.mem_cons_of_mem x hy))]

/-- Under primary-key uniqueness, replacing the row with id `r.id` leaves
exactly one row with that id when one was present, none otherwise. -/
theorem pgFilterReplace (r : PgRow) :
    ∀ (tbl : List PgRow), pgNodup tbl →
    ((tbl.map (fun x => if x.id == r.id then r else x)).filter (fun x => x.id == r.id))
      = if tbl.any (fun x => x.id == r.id) then [r] else [] := by
  intro tbl
  induction tbl with
  | nil => intro _; rfl
  | cons x xs ih =>
    intro h
    have hpair : x.id ∉ xs.map (fun r2 => r2.id) ∧ (xs.map (fun r2 => r2.id)).Nodup := by
      unfold pgNodup at h
      rw [List.map_cons, List.nodup_cons] at h
      exact h
    have hnd : pgNodup xs := hpair.2
    cases hx : (x.id == r.id) with
    | true =>
      have hxr : x.id = r.id := by simpa using hx
      have hxsmem : ∀ y ∈ xs, (y.id == r.id) = false := by
        intro y hy
        by_contra hc
        have hy2 : y.id = r.id := by
          cases hz : (y.id == r.id) with
          | true => simpa using hz
          | false => exact absurd hz hc
        exact hpair.1 (by
          rw [hxr, ← hy2]
          exact List.mem_map_of_mem (fun r2 => r2.id) hy)
      have htail : (xs.map (fun x2 => if x2.id == r.id then r else x2)).filter
          (fun x2 => x2.id == r.id) = [] := by
        rw [List.filter_eq_nil_iff]
        intro y hy
        obtain ⟨y0, hy0, hrep⟩ := List.mem_map.mp hy
        rw [← hrep]
        simp [hxsmem y0 hy0]
      rw [List.map_cons, if_pos hx, List.filter_cons_of_pos (by simp), htail,
        List.any_cons, hx]
      rfl
    | false =>
      have hrec := ih hnd
      rw [List.map_cons, if_neg (by rw [hx]; exact Bool.false_ne_true),
        List.filter_cons_of_neg (by simp [hx]), hrec, List.any_cons, hx]
      rfl

/-- After an upsert into a table with unique ids, exactly the new row
carries its id. -/
theorem pgUpsert_filter (r : PgRow) (tbl : List PgRow) (hnd : pgNodup tbl) :
    (pgUpsert r tbl).filter (fun x => x.id == r.id) = [r] := by
  unfold pgUpsert
  cases ha : tbl.any (fun x => x.id == r.id) with
  | true =>
    rw [if_pos rfl]
    rw [pgFilterReplace r tbl hnd, ha]
    rfl
  | false =>
    rw [if_neg Bool.false_ne_true]
    rw [List.filter_append]
    have h0 : tbl.filter (fun x => x.id == r.id) = [] := by
      rw [List.filter_eq_nil_iff]
      exact List.any_eq_false.mp ha
    rw [h0]
    simp

/-- Upserting the same row twice equals upserting it once. -/
theorem pgUpsert_idem (r : PgRow) (tbl : List PgRow) :
    pgUpsert r (pgUpsert r tbl) = pgUpsert r tbl := by
  have hrefl : (r.id == r.id) = true := by simp
  have hmem : (pgUpsert r tbl).any (fun x => x.id == r.id) = true := by
    unfold pgUpsert
    cases ha : tbl.any (fun x => x.id == r.id) with
    | true =>
      rw [if_pos rfl]
      obtain ⟨x, hx, hpx⟩ := List.any_eq_true.mp ha
      exact List.any_eq_true.mpr
        ⟨r, List.mem_map.mpr ⟨x, hx, by rw [if_pos hpx]⟩, hrefl⟩
    | false =>
      rw [if_neg Bool.false_ne_true]
      exact List.any_eq_true.mpr ⟨r, List.mem_append_right tbl (List.mem_singleton.mpr rfl), hrefl⟩
  set t := pgUpsert r tbl with ht
  show pgUpsert r t = t
  unfold pgUpsert
  rw [if_pos hmem]
  apply pgMapSelf
  intro x hx
  rw [ht] at hx
  unfold pgUpsert at hx
  cases ha : tbl.any (fun y => y.id == r.id) with
  | true =>
    rw [if_pos ha] at hx
    obtain ⟨y, hy, hyx⟩ := List.mem_map.mp hx
    cases hyid : (y.id == r.id) with
    | true =>
      have hxr : x = r := by rw [← hyx, if_pos hyid]
      rw [hxr, if_pos hrefl]
    | false =>
      have hxy : x = y := by rw [← hyx, if_neg (by rw [hyid]; exact Bool.false_ne_true)]
      rw [hxy, if_neg (by rw [hyid]; exact Bool.false_ne_true)]
  | false =>
    rw [if_neg (by rw [ha]; exact Bool.false_ne_true)] at hx
    rcases List.mem_append.mp hx with hxt | hxr
    · have hfalse : ¬ ((x.id == r.id) = true) := List.any_eq_false.mp ha x hxt
      rw [if_neg hfalse]
    · have hxr2 : x = r := List.mem_singleton.mp hxr
      rw [hxr2, if_pos hrefl]

/-- A one-event batch that passes validation, whose submitted id is
truthy, whose unit passes the CHECK constraint and whose timestamp string
the column accepts, reduces to one successful upsert inside the committed
transaction. -/
theorem pg_log_single (gen : Nat → String) (tsOk : String → Bool) (e : RawEvent)
    (i : String) (tbl : List PgRow)
    (hv : isInvalidEvent e = false) (hid : e.id = some i) (hi : i ≠ "")
    (hu : pgUnitOk (e.unit.getD "") = true) (hts : tsOk (e.timestamp.getD "") = true) :
    pg_log_consumption gen tsOk (.arr [e]) tbl = (pgUpsert (pgRowFor i e) tbl, .ok 1) := by
  have hor : orDefault e.id (gen 0) = i := by
    rw [hid]
    exact orDefault_some_of_ne i (gen 0) hi
  simp [pg_log_consumption, pgLoop, pgInsert, pgRowFor, hv, hor, hu, hts]

/-- Constraint violations are not collapsed: a truthiness-valid event
whose unit "kg" fails the CHECK constraint makes the Postgres ingestion
fail, and the rollback leaves the table unchanged. -/
theorem pg_unit_check_rejects :
    pg_log_consumption genU tsAlways (.arr [eKg]) [pgRowFor "e1" eTea]
      = ([pgRowFor "e1" eTea], .error "row violates check constraint on unit") :=
  rfl

/-- C2 amended (Postgres binding).  Ingesting an event that passes
validation and the table constraints — truthy submitted id `i`, unit in
the enumerated set, timestamp accepted by the column — into a table with
unique ids leaves exactly one row under `i`, carrying the newly submitted
field values; and ingesting the identical event again returns the
identical table with `saved_count` 1, so twice equals once.  (The
in-memory binding instead ignores the submitted id and appends a fresh
record on every ingestion.) -/
theorem c2_pg_upsert_replaces (gen : Nat → String) (tsOk : String → Bool)
    (tbl : List PgRow) (e : RawEvent) (i : String)
    (hnd : pgNodup tbl) (hv : isInvalidEvent e = false)
    (hid : e.id = some i) (hi : i ≠ "")
    (hu : pgUnitOk (e.unit.getD "") = true) (hts : tsOk (e.timestamp.getD "") = true) :
    ((pg_log_consumption gen tsOk (.arr [e]) tbl).1.filter (fun r => r.id == i)
        = [pgRowFor i e])
      ∧ pg_log_consumption gen tsOk (.arr [e]) ((pg_log_consumption gen tsOk (.arr [e]) tbl).1)
        = ((pg_log_consumption gen tsOk (.arr [e]) tbl).1, .ok 1) := by
  have hstep := pg_log_single gen tsOk e i tbl hv hid hi hu hts
  rw [hstep]
  constructor
  · exact pgUpsert_filter (pgRowFor i e) tbl hnd
  · show pg_log_consumption gen tsOk (.arr [e]) (pgUpsert (pgRowFor i e) tbl)
        = (pgUpsert (pgRowFor i e) tbl, .ok 1)
    rw [pg_log_single gen tsOk e i (pgUpsert (pgRowFor i e) tbl) hv hid hi hu hts,
      pgUpsert_idem]

/-- C2 witness: the tea event (id "e1", unit "ml", ISO timestamp)
upserted into the empty table, with the timestamp predicate instantiated
at `tsAlways`. -/
theorem c2_pg_upsert_witness :
    pgNodup [] ∧ isInvalidEvent eTea = false ∧ eTea.id = some "e1" ∧ ("e1" : String) ≠ ""
      ∧ pgUnitOk (eTea.unit.getD "") = true ∧ tsAlways (eTea.timestamp.getD "") = true
      ∧ (((pg_log_consumption genU tsAlways (.arr [eTea]) []).1.filter
            (fun r => r.id == "e1")
            = [pgRowFor "e1" eTea])
          ∧ pg_log_consumption genU tsAlways (.arr [eTea])
              ((pg_log_consumption genU tsAlways (.arr [eTea]) []).1)
            = ((pg_log_consumption genU tsAlways (.arr [eTea]) []).1, .ok 1)) :=
  ⟨by simp [pgNodup], by decide, rfl, by decide, by decide, rfl,
    c2_pg_upsert_replaces genU tsAlways [] eTea "e1" (by simp [pgNodup]) (by decide)
      rfl (by decide) (by decide) rfl⟩
